import Mathlib

/-!
Verification of the Auth-Fusion request parsing, credential substitution,
URL building, replay header preparation, response classification and
exit-code logic.  Python strings are modelled as `List Char`; Python dicts
(ordered, case-preserving, last-write-wins) as association lists.
-/

set_option autoImplicit false

namespace AuthFusion

/-- Python strings modelled as character lists. -/
abbrev Str := List Char

/-- Python `dict[str, str]` modelled as an ordered association list. -/
abbrev Headers := List (Str × Str)

/-- Characters stripped by Python `str.strip()` / split by `str.split()`
(ASCII whitespace). -/
def pyIsSpace (c : Char) : Bool :=
  c = ' ' || c = '\t' || c = '\n' || c = '\r' || c = '\x0B' || c = '\x0C'

/-- Python `s.strip()`: remove leading and trailing whitespace. -/
def pyStrip (s : Str) : Str :=
  ((s.dropWhile pyIsSpace).reverse.dropWhile pyIsSpace).reverse

/-- Python `s.upper()` (ASCII). -/
def pyUpper (s : Str) : Str := s.map Char.toUpper

/-- Python `s.lower()` (ASCII). -/
def pyLower (s : Str) : Str := s.map Char.toLower

/-- Word accumulator for `pySplitWS`: `w` is the current word, reversed. -/
def splitWSGo : Str → Str → List Str
  | [], w => if w = [] then [] else [w.reverse]
  | c :: rest, w =>
    if pyIsSpace c then
      if w = [] then splitWSGo rest [] else w.reverse :: splitWSGo rest []
    else splitWSGo rest (c :: w)

/-- Python `s.split()` with no separator: split on runs of whitespace,
discarding empty pieces. -/
def pySplitWS (s : Str) : List Str := splitWSGo s []

/-- Python `raw_text.replace("\r\n", "\n")`: leftmost, non-overlapping,
single pass. -/
def pyReplace : Str → Str
  | [] => []
  | [c] => [c]
  | c :: d :: rest =>
    if c = '\r' && d = '\n' then '\n' :: pyReplace rest
    else c :: pyReplace (d :: rest)

/-- Python `normalized.split("\n\n", 1)` combined with the `"\n\n" in
normalized` test: the head before the first blank line, and the body after
it when a blank line exists. -/
def splitOnBlank : Str → Str × Option Str
  | [] => ([], none)
  | [c] => ([c], none)
  | c :: d :: rest =>
    if c = '\n' && d = '\n' then ([], some rest)
    else
      let p := splitOnBlank (d :: rest)
      (c :: p.1, p.2)

/-- Python `head.split("\n")`. -/
def splitNl : Str → List Str
  | [] => [[]]
  | c :: rest =>
    if c = '\n' then [] :: splitNl rest
    else
      match splitNl rest with
      | [] => [[c]]
      | l :: ls => (c :: l) :: ls

/-- Python dict assignment `d[k] = v`: overwrite in place when the key is
present, otherwise append. -/
def dictInsert (d : Headers) (k v : Str) : Headers :=
  if d.any (fun kv => kv.1 = k) then
    d.map (fun kv => if kv.1 = k then (kv.1, v) else kv)
  else d ++ [(k, v)]

/-- Python dict lookup `d[k]` (as an `Option` instead of `KeyError`). -/
def dictGet (d : Headers) (k : Str) : Option Str :=
  (d.find? (fun kv => kv.1 = k)).map Prod.snd

/-- Python `del d[k]`. -/
def dictDelete (d : Headers) (k : Str) : Headers :=
  d.filter (fun kv => kv.1 ≠ k)

/-- Result of parsing a raw HTTP request (`ParsedRequest` in
`auth_fusion/parser.py`). -/
structure ParsedRequest where
  method : Str
  path : Str
  headers : Headers
  body : Option Str
  deriving Repr, DecidableEq

/-- Header-line loop of `parse_raw_request`: strip each line, skip blank
lines and lines without a colon, otherwise split at the first colon and
store the stripped key and value. -/
def parse_headers : List Str → Headers → Headers
  | [], acc => acc
  | line :: rest, acc =>
    let l := pyStrip line
    if l = [] then parse_headers rest acc
    else
      match l.findIdx? (fun c => c = ':') with
      | none => parse_headers rest acc
      | some i => parse_headers rest (dictInsert acc (pyStrip (l.take i)) (pyStrip (l.drop (i + 1))))

/-- `parse_raw_request` from `auth_fusion/parser.py`; the `ValueError` on a
malformed request line is modelled as `none`. -/
def parse_raw_request (raw_text : Str) : Option ParsedRequest :=
  let normalized := pyReplace raw_text
  let hb := splitOnBlank normalized
  let body : Option Str :=
    match hb.2 with
    | some b => if pyStrip b = [] then none else some b
    | none => none
  let lines := splitNl hb.1
  let request_line := pyStrip (lines.headD [])
  match pySplitWS request_line with
  | m :: p :: _ =>
      some ⟨pyUpper m, p, parse_headers lines.tail [], body⟩
  | _ => none

/-- Lowest-cased name of the Authorization header. -/
def authLower : Str := "authorization".toList

/-- Exact header name added by `swap_token` when no variant exists. -/
def authKey : Str := "Authorization".toList

/-- Value written by `swap_token`: `f"Bearer {attacker_token}"`. -/
def bearerValue (attacker_token : Str) : Str :=
  "Bearer ".toList ++ attacker_token

/-- One iteration of the `swap_token` loop in `auth_fusion/engine.py`:
write the entry into the fresh dict, replacing the value when the key
lower-cases to "authorization" and recording that a swap happened. -/
def swapStep (attacker_token : Str) (acc : Headers × Bool) (kv : Str × Str) :
    Headers × Bool :=
  if pyLower kv.1 = authLower then
    (dictInsert acc.1 kv.1 (bearerValue attacker_token), true)
  else
    (dictInsert acc.1 kv.1 kv.2, acc.2)

/-- The `swap_token` loop: iterate over the input entries starting from an
empty dict and a cleared flag. -/
def swapFold (attacker_token : Str) (headers : Headers) : Headers × Bool :=
  headers.foldl (swapStep attacker_token) ([], false)

/-- `swap_token` from `auth_fusion/engine.py`. -/
def swap_token (headers : Headers) (attacker_token : Str) : Headers :=
  let r := swapFold attacker_token headers
  if r.2 then r.1 else dictInsert r.1 authKey (bearerValue attacker_token)

/-- Python `target_host.rstrip("/")`: remove all trailing slashes. -/
def pyRstripSlash (s : Str) : Str :=
  (s.reverse.dropWhile (fun c => c = '/')).reverse

/-- `build_url` from `auth_fusion/engine.py`. -/
def build_url (target_host path : Str) (use_https : Bool) : Str :=
  let scheme := if use_https then "https".toList else "http".toList
  let host := pyRstripSlash target_host
  let path' := if path.head? = some '/' then path else '/' :: path
  scheme ++ "://".toList ++ host ++ path'

/-- Lower-cased name of the Host header. -/
def hostLower : Str := "host".toList

/-- Host-removal loop of `replay_request`: `for key in list(d): if
key.lower() == "host": del d[key]`. -/
def removeHost (d : Headers) : Headers :=
  (d.map Prod.fst).foldl
    (fun acc k => if pyLower k = hostLower then dictDelete acc k else acc) d

/-- Headers handed to the HTTP client by `replay_request`: credential
substitution followed by Host removal. -/
def replay_headers (headers : Headers) (attacker_token : Str) : Headers :=
  removeHost (swap_token headers attacker_token)

/-- Decimal rendering of a Python int as a character list (`f"{code}"`). -/
def intStr (code : Int) : Str := (toString code).toList

/-- Python `code in SUCCESS_CODES` with `SUCCESS_CODES = range(200, 300)`. -/
def inSuccessCodes (code : Int) : Bool := 200 ≤ code && code < 300

/-- `MIN_BODY_LENGTH` from `auth_fusion/engine.py`. -/
def MIN_BODY_LENGTH : Nat := 2

/-- Message of the 401/403 branch of `analyze_response`. -/
def safeMsg (code : Int) : Str :=
  "[SAFE] Access Denied (HTTP ".toList ++ intStr code ++
    "). The server correctly rejected the low-privilege token.".toList

/-- Message of the 404 branch of `analyze_response`. -/
def inconclusiveMsg : Str :=
  ("[INCONCLUSIVE] HTTP 404 — resource not found. " ++
    "The endpoint may not exist or may require different parameters.").toList

/-- Text of the vulnerable-branch message before the status code. -/
def vulnPre : Str := "[VULNERABLE] HTTP ".toList

/-- Text of the vulnerable-branch message between code and snippet. -/
def vulnMid : Str :=
  (" — The server returned a successful response with data using the " ++
    "attacker\x27s token!\n  Response snippet: ").toList

/-- Text of the vulnerable-branch message after the snippet. -/
def vulnPost : Str := "...".toList

/-- Message of the vulnerable branch of `analyze_response`. -/
def vulnMsg (code : Int) (snippet : Str) : Str :=
  vulnPre ++ intStr code ++ vulnMid ++ snippet ++ vulnPost

/-- Message of the empty-body success branch of `analyze_response`. -/
def likelySafeMsg (code : Int) : Str :=
  "[LIKELY SAFE] HTTP ".toList ++ intStr code ++
    (" — success status but empty/trivial response body. The server may " ++
      "have accepted the request but returned no privileged data.").toList

/-- Message of the fallback branch of `analyze_response`. -/
def manualMsg (code : Int) : Str :=
  "[MANUAL REVIEW] HTTP ".toList ++ intStr code ++
    " — unexpected status code. Manual investigation is recommended.".toList

/-- `analyze_response` from `auth_fusion/engine.py`, as a pure function of
the response status code and body text. -/
def analyze_response (code : Int) (text : Str) : Bool × Str :=
  let body := pyStrip text
  if code = 401 || code = 403 then (false, safeMsg code)
  else if code = 404 then (false, inconclusiveMsg)
  else if inSuccessCodes code && MIN_BODY_LENGTH ≤ body.length then
    (true, vulnMsg code (body.take 200))
  else if inSuccessCodes code then (false, likelySafeMsg code)
  else (false, manualMsg code)

/-- Exit decision of `validate_args` in `auth_fusion/cli.py`: `some n`
models `sys.exit(n)`, `none` means validation passed.  The file-system
checks are abstracted into the two booleans. -/
def validate_exit (fileIsFile fileReadable : Bool)
    (attacker_token target_host : Str) : Option Nat :=
  if !fileIsFile then some 1
  else if !fileReadable then some 1
  else if pyStrip attacker_token = [] then some 1
  else if pyStrip target_host = [] then some 1
  else none

/-- Process exit code of `main` in `auth_fusion/__main__.py`.  `loaded`
models the outcome of reading the request file (`none` = IO error),
`replayed` models the outcome of the network replay (`none` = transport
exception, `some (status, text)` = the HTTP response passed to
`analyze_response`). -/
def main_exit (fileIsFile fileReadable : Bool)
    (attacker_token target_host : Str)
    (loaded : Option Str) (replayed : Option (Int × Str)) : Nat :=
  match validate_exit fileIsFile fileReadable attacker_token target_host with
  | some n => n
  | none =>
    match loaded with
    | none => 2
    | some raw =>
      match parse_raw_request raw with
      | none => 2
      | some _ =>
        match replayed with
        | none => 2
        | some resp =>
          if (analyze_response resp.1 resp.2).1 then 1 else 0

/-- First line of a text: everything before the first newline (equals
Python `s.split("\n")[0]`). -/
def firstLine (s : Str) : Str := s.takeWhile (fun c => c ≠ '\n')

/-- Whether the text contains the three-character substring CR CR LF —
exactly the situation in which one pass of `pyReplace` leaves a CRLF pair
behind. -/
def hasCRCRLF : Str → Bool
  | c :: d :: e :: rest =>
      (c = '\r' && d = '\r' && e = '\n') || hasCRCRLF (d :: e :: rest)
  | _ => false

theorem pyReplace_cons (d : Char) (rest : Str) :
    pyReplace (d :: rest) =
      if d = '\r' ∧ rest.head? = some '\n' then '\n' :: pyReplace rest.tail
      else d :: pyReplace rest := by
  match rest with
  | [] => simp [pyReplace]
  | e :: rest' =>
    simp only [pyReplace, List.head?, List.tail]
    by_cases hd : d = '\r' <;> by_cases he : e = '\n' <;>
      simp [hd, he, pyReplace]

theorem hasCRCRLF_cons (c : Char) (rest : Str) (h : hasCRCRLF (c :: rest) = false) :
    hasCRCRLF rest = false := by
  match rest with
  | [] => rfl
  | [d] => rfl
  | d :: e :: rest' =>
    simp only [hasCRCRLF, Bool.or_eq_false_iff] at h
    exact h.2

theorem pyReplace_idem (t : Str) (h : hasCRCRLF t = false) :
    pyReplace (pyReplace t) = pyReplace t := by
  induction t using pyReplace.induct with
  | case1 => rfl
  | case2 c => rfl
  | case3 c d rest hcd ih =>
    rw [Bool.and_eq_true, decide_eq_true_iff, decide_eq_true_iff] at hcd
    rw [pyReplace_cons c (d :: rest), if_pos (by simpa using hcd)]
    rw [List.tail_cons]
    rw [pyReplace_cons '\n' (pyReplace rest)]
    rw [if_neg (by simp)]
    rw [ih (hasCRCRLF_cons c (d :: rest) h |> hasCRCRLF_cons d rest)]
  | case4 c d rest hcd ih =>
    rw [Bool.and_eq_true, decide_eq_true_iff, decide_eq_true_iff, not_and_or] at hcd
    have hne : ¬(c = '\r' ∧ (d :: rest).head? = some '\n') := by
      simp only [List.head?_cons, Option.some_inj]
      tauto
    rw [pyReplace_cons c (d :: rest), if_neg hne]
    rw [pyReplace_cons d rest] at *
    by_cases hdr : d = '\r' ∧ rest.head? = some '\n'
    · -- inner pair replaced; then c ≠ '\r' since "\r\r\n" is excluded
      have hc : c ≠ '\r' := by
        intro hc
        subst hc
        rcases hdr with ⟨hd, hr⟩
        subst hd
        cases rest with
        | nil => simp at hr
        | cons e rest' =>
          simp only [List.head?_cons, Option.some_inj] at hr
          subst hr
          simp [hasCRCRLF] at h
      rw [if_pos hdr] at *
      rw [pyReplace_cons c ('\n' :: pyReplace rest.tail)]
      rw [if_neg (by simp [hc])]
      rw [ih (hasCRCRLF_cons c (d :: rest) h)]
    · rw [if_neg hdr] at *
      rw [pyReplace_cons c (d :: pyReplace rest)]
      rw [if_neg (by
        rintro ⟨hc, hdn⟩
        simp only [List.head?_cons, Option.some_inj] at hdn
        exact absurd (Or.resolve_left hcd (by simp [hc])) (by simp [hdn]))]
      rw [ih (hasCRCRLF_cons c (d :: rest) h)]

theorem splitNl_ne_nil (s : Str) : splitNl s ≠ [] := by
  match s with
  | [] => simp [splitNl]
  | c :: rest =>
    simp only [splitNl]
    split
    · simp
    · split <;> simp

theorem firstLine_nil : firstLine [] = [] := rfl

theorem firstLine_cons (c : Char) (rest : Str) :
    firstLine (c :: rest) = if c = '\n' then [] else c :: firstLine rest := by
  simp only [firstLine, List.takeWhile]
  by_cases hc : c = '\n' <;> simp [hc]

theorem splitNl_headD (s : Str) : (splitNl s).headD [] = firstLine s := by
  induction s with
  | nil => rfl
  | cons c rest ih =>
    rw [firstLine_cons]
    simp only [splitNl]
    by_cases hc : c = '\n'
    · simp [hc]
    · simp only [hc, ite_false]
      match hs : splitNl rest with
      | [] => exact absurd hs (splitNl_ne_nil rest)
      | l :: ls =>
        rw [hs] at ih
        simp only [List.headD_cons] at ih ⊢
        simp [ih]

theorem splitOnBlank_firstLine (s : Str) :
    firstLine (splitOnBlank s).1 = firstLine s := by
  induction s using splitOnBlank.induct with
  | case1 => rfl
  | case2 c => rfl
  | case3 c d rest hcd =>
    rw [Bool.and_eq_true, decide_eq_true_iff, decide_eq_true_iff] at hcd
    simp [splitOnBlank, hcd.1, hcd.2, firstLine_cons, firstLine_nil]
  | case4 c d rest hcd ih =>
    simp only [splitOnBlank, hcd, Bool.false_eq_true, if_neg, ite_false]
    rw [firstLine_cons, firstLine_cons]
    by_cases hc : c = '\n'
    · simp [hc]
    · simp [hc, ih]

/-- Tokens of the (stripped) request line: the quantity the parser's
success or failure depends on. -/
def requestLineTokens (raw_text : Str) : List Str :=
  pySplitWS (pyStrip (firstLine (pyReplace raw_text)))

theorem parse_request_line (t : Str) :
    parse_raw_request t =
      match requestLineTokens t with
      | m :: p :: _ =>
          some ⟨pyUpper m, p,
            parse_headers (splitNl (splitOnBlank (pyReplace t)).1).tail [],
            match (splitOnBlank (pyReplace t)).2 with
            | some b => if pyStrip b = [] then none else some b
            | none => none⟩
      | _ => none := by
  simp only [parse_raw_request, requestLineTokens]
  rw [splitNl_headD, splitOnBlank_firstLine]

theorem parse_none_iff (t : Str) :
    parse_raw_request t = none ↔ (requestLineTokens t).length < 2 := by
  rw [parse_request_line]
  match h : requestLineTokens t with
  | [] => simp
  | [m] => simp
  | m :: p :: r => simp

/-- Rewrite applied by `swap_token` to a single entry: authorization-cased
keys keep their casing and receive the Bearer value, others pass through. -/
def swapEntry (attacker_token : Str) (kv : Str × Str) : Str × Str :=
  if pyLower kv.1 = authLower then (kv.1, bearerValue attacker_token) else kv

/-- Whether some header key lower-cases to "authorization". -/
def hasAuth (headers : Headers) : Bool :=
  headers.any (fun kv => pyLower kv.1 = authLower)

/-- Number of entries whose key lower-cases to "authorization". -/
def countAuth (headers : Headers) : Nat :=
  headers.countP (fun kv => pyLower kv.1 = authLower)

/-- Distinct keys: the invariant every Python dict satisfies. -/
abbrev keysNodup (headers : Headers) : Prop :=
  (headers.map Prod.fst).Nodup

theorem swapEntry_fst (tok : Str) (kv : Str × Str) :
    (swapEntry tok kv).1 = kv.1 := by
  unfold swapEntry
  split <;> rfl

theorem dictInsert_of_not_mem (d : Headers) (k v : Str)
    (h : k ∉ d.map Prod.fst) : dictInsert d k v = d ++ [(k, v)] := by
  have ha : d.any (fun kv => kv.1 = k) = false := by
    rw [List.any_eq_false]
    intro kv hkv
    simp only [decide_eq_true_eq]
    intro he
    exact h (he ▸ List.mem_map_of_mem Prod.fst hkv)
  simp [dictInsert, ha]

theorem swapFold_append (tok : Str) (headers : Headers) :
    ∀ (acc : Headers) (sw : Bool),
      (∀ kv ∈ headers, kv.1 ∉ acc.map Prod.fst) →
      (headers.map Prod.fst).Nodup →
      List.foldl (swapStep tok) (acc, sw) headers =
        (acc ++ headers.map (swapEntry tok), sw || hasAuth headers) := by
  induction headers with
  | nil =>
    intro acc sw _ _
    simp [hasAuth]
  | cons kv rest ih =>
    intro acc sw hdis hnd
    rw [List.foldl_cons]
    have hmem : kv.1 ∉ acc.map Prod.fst := hdis kv (List.mem_cons_self kv rest)
    simp only [List.map_cons, List.nodup_cons] at hnd
    have hdis' : ∀ kv' ∈ rest, kv'.1 ∉ (acc ++ [swapEntry tok kv]).map Prod.fst := by
      intro kv' hkv'
      rw [List.map_append, List.mem_append]
      rintro (hacc | hone)
      · exact hdis kv' (List.mem_cons_of_mem kv hkv') hacc
      · simp only [List.map_cons, List.map_nil, List.mem_singleton, swapEntry_fst] at hone
        exact hnd.1 (hone ▸ List.mem_map_of_mem Prod.fst hkv')
    by_cases hk : pyLower kv.1 = authLower
    · have hstep : swapStep tok (acc, sw) kv =
          (acc ++ [swapEntry tok kv], true) := by
        simp [swapStep, hk, swapEntry, dictInsert_of_not_mem acc kv.1 _ hmem]
      rw [hstep, ih (acc ++ [swapEntry tok kv]) true hdis' hnd.2]
      simp [hasAuth, hk]
    · have hstep : swapStep tok (acc, sw) kv =
          (acc ++ [swapEntry tok kv], sw) := by
        simp [swapStep, hk, swapEntry, dictInsert_of_not_mem acc kv.1 _ hmem]
      rw [hstep, ih (acc ++ [swapEntry tok kv]) sw hdis' hnd.2]
      simp [hasAuth, hk]

theorem swapFold_eq (tok : Str) (headers : Headers) (h : keysNodup headers) :
    swapFold tok headers = (headers.map (swapEntry tok), hasAuth headers) := by
  have := swapFold_append tok headers [] false (by simp) h
  simpa [swapFold] using this

theorem keys_map_swapEntry (tok : Str) (headers : Headers) :
    (headers.map (swapEntry tok)).map Prod.fst = headers.map Prod.fst := by
  rw [List.map_map]
  exact List.map_congr_left (fun kv _ => swapEntry_fst tok kv)

theorem pyLower_authKey : pyLower authKey = authLower := by decide

theorem authKey_not_mem_of_not_hasAuth (headers : Headers)
    (h : hasAuth headers = false) : authKey ∉ headers.map Prod.fst := by
  intro hmem
  rcases List.mem_map.mp hmem with ⟨kv, hkv, hfst⟩
  unfold hasAuth at h
  rw [List.any_eq_false] at h
  have hlow : pyLower kv.1 = authLower := by
    rw [hfst]
    exact pyLower_authKey
  have := h kv hkv
  simp only [decide_eq_true_eq] at this
  exact this hlow

theorem swap_token_eq (headers : Headers) (tok : Str) (h : keysNodup headers) :
    swap_token headers tok =
      if hasAuth headers then headers.map (swapEntry tok)
      else headers.map (swapEntry tok) ++ [(authKey, bearerValue tok)] := by
  unfold swap_token
  rw [swapFold_eq tok headers h]
  by_cases ha : hasAuth headers
  · simp [ha]
  · simp only [ha, Bool.false_eq_true, if_neg, ite_false]
    rw [dictInsert_of_not_mem]
    rw [keys_map_swapEntry]
    exact authKey_not_mem_of_not_hasAuth headers (by simpa using ha)

theorem map_swapEntry_of_not_hasAuth (tok : Str) (headers : Headers)
    (h : hasAuth headers = false) : headers.map (swapEntry tok) = headers := by
  unfold hasAuth at h
  rw [List.any_eq_false] at h
  have hfix : ∀ kv ∈ headers, swapEntry tok kv = kv := by
    intro kv hkv
    unfold swapEntry
    rw [if_neg (by simpa using h kv hkv)]
  rw [List.map_congr_left hfix]
  exact List.map_id' headers

theorem hasAuth_map_swapEntry (tok : Str) (headers : Headers) :
    hasAuth (headers.map (swapEntry tok)) = hasAuth headers := by
  unfold hasAuth
  rw [List.any_map]
  simp only [Function.comp_def, swapEntry_fst]

theorem swap_token_keysNodup (headers : Headers) (tok : Str)
    (h : keysNodup headers) : keysNodup (swap_token headers tok) := by
  rw [swap_token_eq headers tok h]
  by_cases ha : hasAuth headers
  · rw [if_pos ha]
    unfold keysNodup
    rw [keys_map_swapEntry]
    exact h
  · simp only [ha, Bool.false_eq_true, if_neg, ite_false]
    unfold keysNodup
    rw [List.map_append, keys_map_swapEntry]
    simp only [List.map_cons, List.map_nil]
    rw [List.nodup_append]
    refine ⟨h, List.nodup_singleton _, ?_⟩
    intro a hmem hb
    simp only [List.mem_singleton] at hb
    exact authKey_not_mem_of_not_hasAuth headers (by simpa using ha) (hb ▸ hmem)

theorem hasAuth_swap_token (headers : Headers) (tok : Str)
    (h : keysNodup headers) : hasAuth (swap_token headers tok) = true := by
  rw [swap_token_eq headers tok h]
  by_cases ha : hasAuth headers
  · rw [if_pos ha, hasAuth_map_swapEntry]
    exact ha
  · simp only [ha, Bool.false_eq_true, if_neg, ite_false]
    unfold hasAuth
    rw [List.any_append]
    simp [pyLower_authKey]

theorem swap_token_auth_value (headers : Headers) (tok : Str)
    (h : keysNodup headers) :
    ∀ kv ∈ swap_token headers tok, pyLower kv.1 = authLower →
      kv.2 = bearerValue tok := by
  rw [swap_token_eq headers tok h]
  have hmap : ∀ kv ∈ headers.map (swapEntry tok),
      pyLower kv.1 = authLower → kv.2 = bearerValue tok := by
    intro kv hkv hlow
    rcases List.mem_map.mp hkv with ⟨kv0, _, hkv0⟩
    subst hkv0
    rw [swapEntry_fst] at hlow
    simp [swapEntry, hlow]
  by_cases ha : hasAuth headers
  · rw [if_pos ha]
    exact hmap
  · simp only [ha, Bool.false_eq_true, if_neg, ite_false]
    intro kv hkv hlow
    rcases List.mem_append.mp hkv with hin | hone
    · exact hmap kv hin hlow
    · simp only [List.mem_singleton] at hone
      rw [hone]

theorem removeHost_foldl (ks : List Str) :
    ∀ acc : Headers,
      List.foldl
        (fun acc k => if pyLower k = hostLower then dictDelete acc k else acc)
        acc ks =
      acc.filter (fun kv => !(decide (kv.1 ∈ ks) && decide (pyLower kv.1 = hostLower))) := by
  induction ks with
  | nil =>
    intro acc
    simp
  | cons k rest ih =>
    intro acc
    rw [List.foldl_cons]
    by_cases hk : pyLower k = hostLower
    · rw [if_pos hk, ih (dictDelete acc k)]
      unfold dictDelete
      rw [List.filter_filter]
      apply List.filter_congr
      intro kv _
      by_cases h1 : kv.1 = k
      · have h2 : pyLower kv.1 = hostLower := by rw [h1]; exact hk
        simp [h1, h2, hk]
      · simp [h1, List.mem_cons]
    · rw [if_neg hk, ih acc]
      apply List.filter_congr
      intro kv _
      by_cases h2 : pyLower kv.1 = hostLower
      · have h1 : ¬kv.1 = k := by
          intro h1
          exact hk (h1 ▸ h2)
        simp [h1, h2, List.mem_cons]
      · simp [h2]

theorem removeHost_eq_filter (d : Headers) :
    removeHost d = d.filter (fun kv => !decide (pyLower kv.1 = hostLower)) := by
  unfold removeHost
  rw [removeHost_foldl]
  apply List.filter_congr
  intro kv hkv
  have hmem : kv.1 ∈ d.map Prod.fst := List.mem_map_of_mem Prod.fst hkv
  simp [hmem]

theorem dictGet_append_of_not_mem (d1 d2 : Headers) (k : Str)
    (h : k ∉ d1.map Prod.fst) : dictGet (d1 ++ d2) k = dictGet d2 k := by
  induction d1 with
  | nil => rfl
  | cons kv rest ih =>
    simp only [List.map_cons, List.mem_cons, not_or] at h
    unfold dictGet
    rw [List.cons_append, List.find?_cons]
    have hne : (decide (kv.1 = k)) = false := by
      simp only [decide_eq_false_iff_not]
      exact fun he => h.1 he.symm
    rw [hne]
    exact ih h.2

theorem dictGet_map_swapEntry (tok : Str) (d : Headers) (k : Str) :
    dictGet (d.map (swapEntry tok)) k =
      (d.find? (fun kv => kv.1 = k)).map (fun kv => (swapEntry tok kv).2) := by
  induction d with
  | nil => rfl
  | cons kv rest ih =>
    unfold dictGet at *
    rw [List.map_cons, List.find?_cons, List.find?_cons, swapEntry_fst]
    by_cases hk : kv.1 = k
    · simp [hk]
    · simp only [hk, decide_eq_true_eq, if_neg, decide_False]
      exact ih

theorem find?_of_mem_keys (d : Headers) (k : Str) (h : k ∈ d.map Prod.fst) :
    ∃ kv, d.find? (fun kv => kv.1 = k) = some kv ∧ kv.1 = k := by
  induction d with
  | nil => simp at h
  | cons kv rest ih =>
    rw [List.find?_cons]
    by_cases hk : kv.1 = k
    · exact ⟨kv, by simp [hk], hk⟩
    · simp only [List.map_cons, List.mem_cons] at h
      rcases h with he | hmem
      · exact absurd he.symm hk
      · simpa [hk] using ih hmem

theorem swap_token_mem_of_not_auth (headers : Headers) (tok : Str)
    (h : keysNodup headers) :
    ∀ kv ∈ headers, pyLower kv.1 ≠ authLower → kv ∈ swap_token headers tok := by
  intro kv hkv hna
  have hmap : kv ∈ headers.map (swapEntry tok) := by
    have : swapEntry tok kv = kv := by
      unfold swapEntry
      rw [if_neg hna]
    exact this ▸ List.mem_map_of_mem (swapEntry tok) hkv
  rw [swap_token_eq headers tok h]
  by_cases ha : hasAuth headers
  · rwa [if_pos ha]
  · simp only [ha, Bool.false_eq_true, if_neg, ite_false]
    exact List.mem_append_left _ hmap

theorem swap_token_mem_not_auth_rev (headers : Headers) (tok : Str)
    (h : keysNodup headers) :
    ∀ kv ∈ swap_token headers tok, pyLower kv.1 ≠ authLower → kv ∈ headers := by
  rw [swap_token_eq headers tok h]
  have hmap : ∀ kv ∈ headers.map (swapEntry tok),
      pyLower kv.1 ≠ authLower → kv ∈ headers := by
    intro kv hkv hna
    rcases List.mem_map.mp hkv with ⟨kv0, hkv0, hrw⟩
    subst hrw
    rw [swapEntry_fst] at hna
    have : swapEntry tok kv0 = kv0 := by
      unfold swapEntry
      rw [if_neg hna]
    rw [this]
    exact hkv0
  by_cases ha : hasAuth headers
  · rw [if_pos ha]
    exact hmap
  · simp only [ha, Bool.false_eq_true, if_neg, ite_false]
    intro kv hkv hna
    rcases List.mem_append.mp hkv with hin | hone
    · exact hmap kv hin hna
    · simp only [List.mem_singleton] at hone
      rw [hone] at hna
      exact absurd pyLower_authKey hna

theorem swap_token_auth_mem (headers : Headers) (tok : Str)
    (h : keysNodup headers) :
    ∀ kv ∈ headers, pyLower kv.1 = authLower →
      (kv.1, bearerValue tok) ∈ swap_token headers tok := by
  intro kv hkv hauth
  have hhas : hasAuth headers = true := by
    unfold hasAuth
    rw [List.any_eq_true]
    exact ⟨kv, hkv, by simpa using hauth⟩
  rw [swap_token_eq headers tok h, if_pos hhas]
  have : swapEntry tok kv = (kv.1, bearerValue tok) := by
    unfold swapEntry
    rw [if_pos hauth]
  exact this ▸ List.mem_map_of_mem (swapEntry tok) hkv

theorem swap_token_exists_auth (headers : Headers) (tok : Str)
    (h : keysNodup headers) :
    ∃ kv ∈ swap_token headers tok, pyLower kv.1 = authLower := by
  have := hasAuth_swap_token headers tok h
  unfold hasAuth at this
  rw [List.any_eq_true] at this
  rcases this with ⟨kv, hkv, hp⟩
  exact ⟨kv, hkv, by simpa using hp⟩

theorem countAuth_map_swapEntry (tok : Str) (headers : Headers) :
    countAuth (headers.map (swapEntry tok)) = countAuth headers := by
  unfold countAuth
  rw [List.countP_map]
  apply List.countP_congr
  intro kv _
  simp [Function.comp_def, swapEntry_fst]

theorem hasAuth_iff_countAuth (headers : Headers) :
    hasAuth headers = true ↔ 1 ≤ countAuth headers := by
  unfold hasAuth countAuth
  rw [List.any_eq_true]
  constructor
  · rintro ⟨kv, hkv, hp⟩
    exact Nat.succ_le_of_lt (List.countP_pos_iff.mpr ⟨kv, hkv, hp⟩)
  · intro hle
    exact List.countP_pos_iff.mp (Nat.lt_of_lt_of_le Nat.zero_lt_one hle)

theorem countAuth_swap_token (headers : Headers) (tok : Str)
    (h : keysNodup headers) :
    countAuth (swap_token headers tok) =
      if hasAuth headers then countAuth headers else 1 := by
  rw [swap_token_eq headers tok h]
  by_cases ha : hasAuth headers
  · rw [if_pos ha, if_pos ha, countAuth_map_swapEntry]
  · simp only [ha, Bool.false_eq_true, if_neg, ite_false]
    unfold countAuth
    rw [List.countP_append]
    have h0 : (headers.map (swapEntry tok)).countP
        (fun kv => decide (pyLower kv.1 = authLower)) = 0 := by
      have := countAuth_map_swapEntry tok headers
      unfold countAuth at this
      rw [this]
      rw [List.countP_eq_zero]
      intro kv hkv
      unfold hasAuth at ha
      rw [Bool.not_eq_true, List.any_eq_false] at ha
      exact ha kv hkv
    rw [h0]
    simp [pyLower_authKey]

theorem head?_dropWhile_not {α : Type} (p : α → Bool) (l : List α) :
    ∀ a, (l.dropWhile p).head? = some a → p a = false := by
  induction l with
  | nil => intro a h; simp at h
  | cons b rest ih =>
    intro a h
    rw [List.dropWhile_cons] at h
    by_cases hb : p b
    · rw [if_pos hb] at h
      exact ih a h
    · rw [if_neg hb] at h
      simp only [List.head?_cons, Option.some_inj] at h
      subst h
      simpa using hb

theorem pyRstripSlash_decomp (s : Str) :
    ∃ k, s = pyRstripSlash s ++ List.replicate k '/' := by
  have hsplit := List.takeWhile_append_dropWhile
    (p := fun c => decide (c = '/')) (l := s.reverse)
  have hall : ∀ c ∈ s.reverse.takeWhile (fun c => decide (c = '/')), c = '/' := by
    intro c hc
    have := List.mem_takeWhile_imp hc
    simpa using this
  have hrep : s.reverse.takeWhile (fun c => decide (c = '/')) =
      List.replicate (s.reverse.takeWhile (fun c => decide (c = '/'))).length '/' :=
    List.eq_replicate_of_mem hall
  refine ⟨(s.reverse.takeWhile (fun c => decide (c = '/'))).length, ?_⟩
  conv_lhs => rw [← List.reverse_reverse s, ← hsplit]
  rw [List.reverse_append]
  unfold pyRstripSlash
  congr 1
  conv_lhs => rw [hrep]
  rw [List.reverse_replicate]

theorem pyRstripSlash_getLast? (s : Str) :
    (pyRstripSlash s).getLast? ≠ some '/' := by
  intro h
  unfold pyRstripSlash at h
  rw [List.getLast?_reverse] at h
  have := head?_dropWhile_not (fun c => decide (c = '/')) s.reverse '/' h
  simp at this

/-- C1: the classifier is a pure, deterministic, total function of
(statusCode, body) with first-match precedence: 401/403 → safe; 404 →
inconclusive; 2xx with trimmed body length ≥ 2 → vulnerable with a
rationale containing the status code and the first 200 characters of the
trimmed body; other 2xx → likely safe; everything else → manual review.
Purity, determinism and totality hold by construction since
`analyze_response` is a total Lean function. -/
theorem claim_C1_classifier (code : Int) (text : Str) :
    ((code = 401 ∨ code = 403) →
      analyze_response code text = (false, safeMsg code)) ∧
    (code = 404 → analyze_response code text = (false, inconclusiveMsg)) ∧
    (200 ≤ code → code < 300 → MIN_BODY_LENGTH ≤ (pyStrip text).length →
      analyze_response code text =
        (true, vulnMsg code ((pyStrip text).take 200)) ∧
      (∃ s1 s2, vulnMsg code ((pyStrip text).take 200) =
        s1 ++ intStr code ++ s2) ∧
      (∃ s1 s2, vulnMsg code ((pyStrip text).take 200) =
        s1 ++ (pyStrip text).take 200 ++ s2)) ∧
    (200 ≤ code → code < 300 → (pyStrip text).length < MIN_BODY_LENGTH →
      analyze_response code text = (false, likelySafeMsg code)) ∧
    (code ≠ 401 → code ≠ 403 → code ≠ 404 → ¬(200 ≤ code ∧ code < 300) →
      analyze_response code text = (false, manualMsg code)) := by
  refine ⟨?_, ?_, ?_, ?_, ?_⟩
  · rintro (h | h) <;> subst h <;> norm_num [analyze_response]
  · intro h
    subst h
    norm_num [analyze_response]
  · intro h1 h2 h3
    have h401 : code ≠ 401 := by omega
    have h403 : code ≠ 403 := by omega
    have h404 : code ≠ 404 := by omega
    have hsc : inSuccessCodes code = true := by
      simp only [inSuccessCodes, Bool.and_eq_true, decide_eq_true_eq]
      omega
    refine ⟨by simp [analyze_response, h401, h403, h404, hsc, h3], ?_, ?_⟩
    · exact ⟨vulnPre, vulnMid ++ (pyStrip text).take 200 ++ vulnPost,
        by simp [vulnMsg, List.append_assoc]⟩
    · exact ⟨vulnPre ++ intStr code ++ vulnMid, vulnPost,
        by simp [vulnMsg, List.append_assoc]⟩
  · intro h1 h2 h3
    have h401 : code ≠ 401 := by omega
    have h403 : code ≠ 403 := by omega
    have h404 : code ≠ 404 := by omega
    have hsc : inSuccessCodes code = true := by
      simp only [inSuccessCodes, Bool.and_eq_true, decide_eq_true_eq]
      omega
    have hshort : ¬MIN_BODY_LENGTH ≤ (pyStrip text).length := by omega
    simp [analyze_response, h401, h403, h404, hsc, hshort]
  · intro h401 h403 h404 hrange
    have hsc : inSuccessCodes code = false := by
      simp only [inSuccessCodes, Bool.and_eq_false_iff, decide_eq_false_iff_not]
      omega
    simp [analyze_response, h401, h403, h404, hsc]

/-- Witness for C1 at concrete inputs: a 200 response with a non-trivial
body is flagged vulnerable, and a 500 response gets the manual-review
rationale. -/
theorem claim_C1_classifier_witness :
    analyze_response 200 "admin data".toList =
      (true, vulnMsg 200 ((pyStrip "admin data".toList).take 200)) ∧
    analyze_response 500 "Server Error".toList = (false, manualMsg 500) := by
  refine ⟨?_, ?_⟩
  · exact ((claim_C1_classifier 200 "admin data".toList).2.2.1
      (by norm_num) (by norm_num) (by decide)).1
  · exact (claim_C1_classifier 500 "Server Error".toList).2.2.2.2
      (by norm_num) (by norm_num) (by norm_num) (by omega)

theorem splitWSGo_all_space :
    ∀ sp : Str, (∀ c ∈ sp, pyIsSpace c = true) →
      ∀ w : Str, splitWSGo sp w = if w = [] then [] else [w.reverse]
  | [], _, w => rfl
  | c :: sp', hsp, w => by
    have hc : pyIsSpace c = true := hsp c (List.mem_cons_self c sp')
    have hsp' : ∀ c ∈ sp', pyIsSpace c = true :=
      fun a ha => hsp a (List.mem_cons_of_mem c ha)
    simp only [splitWSGo, hc, if_true]
    by_cases hw : w = []
    · rw [if_pos hw, if_pos hw, splitWSGo_all_space sp' hsp' [], if_pos rfl]
    · rw [if_neg hw, if_neg hw, splitWSGo_all_space sp' hsp' [], if_pos rfl]

theorem splitWSGo_append_space (sp : Str) (hsp : ∀ c ∈ sp, pyIsSpace c = true) :
    ∀ (u w : Str), splitWSGo (u ++ sp) w = splitWSGo u w := by
  intro u
  induction u with
  | nil =>
    intro w
    rw [List.nil_append, splitWSGo_all_space sp hsp w]
    match w with
    | [] => rfl
    | a :: w' => simp [splitWSGo]
  | cons c u' ih =>
    intro w
    rw [List.cons_append]
    simp only [splitWSGo]
    by_cases hc : pyIsSpace c
    · rw [if_pos hc, if_pos hc]
      by_cases hw : w = []
      · rw [if_pos hw, if_pos hw, ih []]
      · rw [if_neg hw, if_neg hw, ih []]
    · rw [if_neg hc, if_neg hc, ih (c :: w)]

theorem splitWSGo_dropWhile (s : Str) :
    splitWSGo (s.dropWhile pyIsSpace) [] = splitWSGo s [] := by
  induction s with
  | nil => rfl
  | cons c rest ih =>
    rw [List.dropWhile_cons]
    by_cases hc : pyIsSpace c
    · simp only [hc, if_true, ih]
      simp [splitWSGo, hc]
    · simp [hc]

theorem reverse_dropWhile_decomp (p : Char → Bool) (s : Str) :
    ∃ sp, s = (s.reverse.dropWhile p).reverse ++ sp ∧ ∀ c ∈ sp, p c = true := by
  refine ⟨(s.reverse.takeWhile p).reverse, ?_, ?_⟩
  · conv_lhs => rw [← List.reverse_reverse s,
      ← List.takeWhile_append_dropWhile (p := p) (l := s.reverse)]
    rw [List.reverse_append]
  · intro c hc
    rw [List.mem_reverse] at hc
    exact List.mem_takeWhile_imp hc

theorem pySplitWS_pyStrip (s : Str) : pySplitWS (pyStrip s) = pySplitWS s := by
  unfold pySplitWS pyStrip
  rcases reverse_dropWhile_decomp pyIsSpace (s.dropWhile pyIsSpace) with ⟨sp, hu, hsp⟩
  calc splitWSGo ((s.dropWhile pyIsSpace).reverse.dropWhile pyIsSpace).reverse [] =
      splitWSGo (((s.dropWhile pyIsSpace).reverse.dropWhile pyIsSpace).reverse ++ sp) [] := by
        rw [splitWSGo_append_space sp hsp]
    _ = splitWSGo (s.dropWhile pyIsSpace) [] := by rw [← hu]
    _ = splitWSGo s [] := splitWSGo_dropWhile s

theorem requestLineTokens_eq (raw_text : Str) :
    requestLineTokens raw_text = pySplitWS (firstLine (pyReplace raw_text)) := by
  unfold requestLineTokens
  exact pySplitWS_pyStrip _

/-- C2: parsing fails (the malformed-request `ValueError`, modelled as
`none`) exactly when the first line of the normalized text yields fewer
than two whitespace tokens; with at least two tokens it succeeds, the
method is the first token upper-cased and the path is the second token. -/
theorem claim_C2_request_line (raw_text : Str) :
    (parse_raw_request raw_text = none ↔
      (pySplitWS (firstLine (pyReplace raw_text))).length < 2) ∧
    (∀ m p rest, pySplitWS (firstLine (pyReplace raw_text)) = m :: p :: rest →
      ∃ pr, parse_raw_request raw_text = some pr ∧
        pr.method = pyUpper m ∧ pr.path = p) := by
  refine ⟨(requestLineTokens_eq raw_text) ▸ parse_none_iff raw_text, ?_⟩
  intro m p rest h
  rw [← requestLineTokens_eq raw_text] at h
  rw [parse_request_line, h]
  exact ⟨_, rfl, rfl, rfl⟩

/-- Witness for C2 at a concrete raw request: the method is upper-cased
and the path is the second token. -/
theorem claim_C2_request_line_witness :
    ∃ pr, parse_raw_request "get /x HTTP/1.1".toList = some pr ∧
      pr.method = pyUpper "get".toList ∧ pr.path = "/x".toList :=
  (claim_C2_request_line "get /x HTTP/1.1".toList).2
    "get".toList "/x".toList ["HTTP/1.1".toList] (by decide)

/-- Counterexample to C3 as stated: for raw text whose body contains the
sequence CR CR LF, one normalization pass leaves a CRLF that a second pass
collapses, so the parsed bodies differ. -/
theorem claim_C3_counterexample :
    parse_raw_request "GET /x\n\nA\r\r\nB".toList ≠
      parse_raw_request (pyReplace "GET /x\n\nA\r\r\nB".toList) := by
  decide

/-- C3 (amended): for every raw text that does not contain the substring
CR CR LF, parsing the text and parsing the text with all CRLF sequences
replaced by LF produce identical structured requests. -/
theorem claim_C3_line_endings (raw_text : Str)
    (h : hasCRCRLF raw_text = false) :
    parse_raw_request (pyReplace raw_text) = parse_raw_request raw_text := by
  simp only [parse_raw_request]
  rw [pyReplace_idem raw_text h]

/-- Witness for C3 at a concrete CRLF-terminated request. -/
theorem claim_C3_line_endings_witness :
    hasCRCRLF "GET /x HTTP/1.1\r\nHost: a\r\n\r\nbody".toList = false ∧
    parse_raw_request (pyReplace "GET /x HTTP/1.1\r\nHost: a\r\n\r\nbody".toList) =
      parse_raw_request "GET /x HTTP/1.1\r\nHost: a\r\n\r\nbody".toList :=
  ⟨by decide, claim_C3_line_endings _ (by decide)⟩

/-- Counterexample to C4 as stated: when the captured header used the
casing "authorization", the substituted mapping keeps that key, so the
exact-cased lookup of "Authorization" finds nothing. -/
theorem claim_C4_counterexample :
    dictGet (swap_token [("authorization".toList, "Bearer old".toList)]
        "tok".toList) authKey ≠ some (bearerValue "tok".toList) := by
  decide

/-- C4 (amended): after substitution every entry whose key case-
insensitively equals "authorization" carries the value "Bearer " + token
and at least one such entry exists; the exact-cased lookup of
"Authorization" yields "Bearer " + token whenever the input had no
authorization header under any casing, or had one spelled exactly
"Authorization" — but not when only a differently-cased variant existed. -/
theorem claim_C4_bearer_lookup (headers : Headers) (tok : Str)
    (h : keysNodup headers) :
    (∀ kv ∈ swap_token headers tok, pyLower kv.1 = authLower →
      kv.2 = bearerValue tok) ∧
    (∃ kv ∈ swap_token headers tok, pyLower kv.1 = authLower) ∧
    ((hasAuth headers = false ∨ authKey ∈ headers.map Prod.fst) →
      dictGet (swap_token headers tok) authKey = some (bearerValue tok)) := by
  refine ⟨swap_token_auth_value headers tok h, swap_token_exists_auth headers tok h, ?_⟩
  rintro (hno | hmem)
  · rw [swap_token_eq headers tok h]
    simp only [hno, Bool.false_eq_true, if_neg, ite_false]
    rw [map_swapEntry_of_not_hasAuth tok headers hno]
    rw [dictGet_append_of_not_mem _ _ _ (authKey_not_mem_of_not_hasAuth headers hno)]
    simp [dictGet]
  · have hhas : hasAuth headers = true := by
      rcases List.mem_map.mp hmem with ⟨kv, hkv, hfst⟩
      unfold hasAuth
      rw [List.any_eq_true]
      exact ⟨kv, hkv, by simp [hfst, pyLower_authKey]⟩
    rw [swap_token_eq headers tok h, if_pos hhas]
    rw [dictGet_map_swapEntry]
    rcases find?_of_mem_keys headers authKey hmem with ⟨kv, hfind, hfst⟩
    rw [hfind]
    have : swapEntry tok kv = (kv.1, bearerValue tok) := by
      unfold swapEntry
      rw [if_pos (by rw [hfst]; exact pyLower_authKey)]
    simp [this]

/-- Witness for C4 at a concrete exactly-cased input mapping. -/
theorem claim_C4_bearer_lookup_witness :
    dictGet (swap_token [("Authorization".toList, "Bearer victim".toList)]
        "atk".toList) authKey = some (bearerValue "atk".toList) :=
  (claim_C4_bearer_lookup [("Authorization".toList, "Bearer victim".toList)]
      "atk".toList (by decide)).2.2 (Or.inr (by decide))

/-- Counterexample to C5 as stated: with two casing variants of the
Authorization header in the input, the result keeps two Authorization-
bearing entries, not exactly one. -/
theorem claim_C5_counterexample :
    countAuth (swap_token [("Authorization".toList, "a".toList),
        ("AUTHORIZATION".toList, "b".toList)] "t".toList) ≠ 1 := by
  decide

/-- C5 (amended): substitution keeps every authorization-variant key with
its original casing and the value "Bearer " + token (so the result has as
many authorization entries as the input, or one if it had none — exactly
one only when the input had at most one); all other headers are carried
over unchanged, and the input itself is untouched (the model is a pure
function returning a fresh list). -/
theorem claim_C5_swap_shape (headers : Headers) (tok : Str)
    (h : keysNodup headers) :
    countAuth (swap_token headers tok) =
      (if hasAuth headers then countAuth headers else 1) ∧
    (countAuth headers ≤ 1 → countAuth (swap_token headers tok) = 1) ∧
    (∀ kv ∈ headers, pyLower kv.1 = authLower →
      (kv.1, bearerValue tok) ∈ swap_token headers tok) ∧
    (∀ kv ∈ headers, pyLower kv.1 ≠ authLower →
      kv ∈ swap_token headers tok) ∧
    (∀ kv ∈ swap_token headers tok, pyLower kv.1 ≠ authLower →
      kv ∈ headers) := by
  refine ⟨countAuth_swap_token headers tok h, ?_,
    swap_token_auth_mem headers tok h,
    swap_token_mem_of_not_auth headers tok h,
    swap_token_mem_not_auth_rev headers tok h⟩
  intro hle
  rw [countAuth_swap_token headers tok h]
  by_cases ha : hasAuth headers
  · rw [if_pos ha]
    have := (hasAuth_iff_countAuth headers).mp ha
    omega
  · rw [if_neg ha]

/-- Witness for C5 at a concrete single-variant input mapping. -/
theorem claim_C5_swap_shape_witness :
    countAuth (swap_token [("Host".toList, "e.com".toList),
        ("authorization".toList, "Bearer v".toList)] "t".toList) = 1 :=
  (claim_C5_swap_shape [("Host".toList, "e.com".toList),
      ("authorization".toList, "Bearer v".toList)] "t".toList
    (by decide)).2.1 (by decide)

/-- C6: credential substitution is idempotent — substituting twice with
the same token yields exactly the mapping obtained by substituting once. -/
theorem claim_C6_idempotent (headers : Headers) (tok : Str)
    (h : keysNodup headers) :
    swap_token (swap_token headers tok) tok = swap_token headers tok := by
  have h2 := swap_token_keysNodup headers tok h
  rw [swap_token_eq _ tok h2, if_pos (hasAuth_swap_token headers tok h)]
  have hfix : ∀ kv ∈ swap_token headers tok, swapEntry tok kv = kv := by
    intro kv hkv
    unfold swapEntry
    by_cases hl : pyLower kv.1 = authLower
    · rw [if_pos hl]
      have hv := swap_token_auth_value headers tok h kv hkv hl
      rw [← hv]
    · rw [if_neg hl]
  rw [List.map_congr_left hfix]
  exact List.map_id' _

/-- Witness for C6 at a concrete input mapping. -/
theorem claim_C6_idempotent_witness :
    swap_token (swap_token [("Authorization".toList, "Bearer v".toList)]
        "t".toList) "t".toList =
      swap_token [("Authorization".toList, "Bearer v".toList)] "t".toList :=
  claim_C6_idempotent [("Authorization".toList, "Bearer v".toList)]
    "t".toList (by decide)

/-- Counterexample to C7 as stated: `rstrip("/")` removes every trailing
slash, not a single one, so a host ending in "//" loses both slashes
instead of keeping one. -/
theorem claim_C7_counterexample :
    build_url "api.example.com//".toList "x".toList true ≠
      "https://api.example.com//x".toList := by
  decide

/-- C7 (amended): `build_url` returns scheme://host+path where the scheme
is https exactly when TLS is requested, the host has ALL trailing slashes
removed, and the path gains a leading slash exactly when it lacks one; the
two concrete examples of the claim hold. -/
theorem claim_C7_build_url (target_host path : Str) (use_https : Bool) :
    (∃ k, target_host = pyRstripSlash target_host ++ List.replicate k '/') ∧
    (pyRstripSlash target_host).getLast? ≠ some '/' ∧
    build_url target_host path use_https =
      (if use_https then "https".toList else "http".toList) ++ "://".toList ++
        pyRstripSlash target_host ++
        (if path.head? = some '/' then path else '/' :: path) ∧
    build_url "api.example.com/".toList "api/v1/x".toList true =
      "https://api.example.com/api/v1/x".toList ∧
    build_url "api.example.com".toList "/api/v1/x".toList false =
      "http://api.example.com/api/v1/x".toList :=
  ⟨pyRstripSlash_decomp target_host, pyRstripSlash_getLast? target_host,
    rfl, by decide, by decide⟩

/-- C8: the headers sent by the replay step are exactly the credential-
substituted headers with every key that case-insensitively equals "host"
removed; nothing else is removed or altered, and in particular any
non-authorization, non-host header of the captured request (such as
Accept-Encoding or Content-Length) survives into the outbound set. -/
theorem claim_C8_replay_headers (headers : Headers) (tok : Str)
    (h : keysNodup headers) :
    replay_headers headers tok =
      (swap_token headers tok).filter
        (fun kv => !decide (pyLower kv.1 = hostLower)) ∧
    (∀ kv ∈ swap_token headers tok, pyLower kv.1 ≠ hostLower →
      kv ∈ replay_headers headers tok) ∧
    (∀ kv ∈ replay_headers headers tok,
      kv ∈ swap_token headers tok ∧ pyLower kv.1 ≠ hostLower) ∧
    (∀ kv ∈ headers, pyLower kv.1 ≠ authLower → pyLower kv.1 ≠ hostLower →
      kv ∈ replay_headers headers tok) := by
  have hfil : replay_headers headers tok =
      (swap_token headers tok).filter
        (fun kv => !decide (pyLower kv.1 = hostLower)) := by
    unfold replay_headers
    exact removeHost_eq_filter (swap_token headers tok)
  refine ⟨hfil, ?_, ?_, ?_⟩
  · intro kv hkv hne
    rw [hfil, List.mem_filter]
    exact ⟨hkv, by simpa using hne⟩
  · intro kv hkv
    rw [hfil, List.mem_filter] at hkv
    exact ⟨hkv.1, by simpa using hkv.2⟩
  · intro kv hkv hna hnh
    rw [hfil, List.mem_filter]
    exact ⟨swap_token_mem_of_not_auth headers tok h kv hkv hna,
      by simpa using hnh⟩

/-- Witness for C8: Accept-Encoding and Content-Length headers from the
captured request survive into the outbound header set while Host does not. -/
theorem claim_C8_replay_headers_witness :
    ("Accept-Encoding".toList, "gzip".toList) ∈
      replay_headers [("Host".toList, "e.com".toList),
        ("Accept-Encoding".toList, "gzip".toList),
        ("Content-Length".toList, "999".toList)] "atk".toList ∧
    ("Content-Length".toList, "999".toList) ∈
      replay_headers [("Host".toList, "e.com".toList),
        ("Accept-Encoding".toList, "gzip".toList),
        ("Content-Length".toList, "999".toList)] "atk".toList :=
  ⟨(claim_C8_replay_headers [("Host".toList, "e.com".toList),
        ("Accept-Encoding".toList, "gzip".toList),
        ("Content-Length".toList, "999".toList)] "atk".toList
      (by decide)).2.2.2 _ (by decide) (by decide) (by decide),
   (claim_C8_replay_headers [("Host".toList, "e.com".toList),
        ("Accept-Encoding".toList, "gzip".toList),
        ("Content-Length".toList, "999".toList)] "atk".toList
      (by decide)).2.2.2 _ (by decide) (by decide) (by decide)⟩

/-- C9: evaluation of the exit-code logic.  The claim says every failure
exits with code 2, but a missing or unreadable request file makes
`validate_args` call `sys.exit(1)` — colliding with exit code 1, which is
documented to mean "vulnerability found".  Parse failures, load failures
and replay failures do exit 2, and successful replays exit 0 or 1 by
verdict. -/
theorem claim_C9_exit_codes :
    main_exit false true "tok".toList "host".toList none none = 1 ∧
    main_exit true false "tok".toList "host".toList none none = 1 ∧
    main_exit true true "tok".toList "host".toList none none = 2 ∧
    main_exit true true "tok".toList "host".toList
      (some "INVALID\n\n".toList) none = 2 ∧
    main_exit true true "tok".toList "host".toList
      (some "GET /x HTTP/1.1".toList) none = 2 ∧
    main_exit true true "tok".toList "host".toList
      (some "GET /x HTTP/1.1".toList) (some (403, "Forbidden".toList)) = 0 ∧
    main_exit true true "tok".toList "host".toList
      (some "GET /x HTTP/1.1".toList) (some (200, "data".toList)) = 1 := by
  decide

/-- C10: when the first line of the normalized raw text is empty or
whitespace-only, parsing fails with the malformed-request error no matter
what appears on later lines — only the very first line is considered. -/
theorem claim_C10_blank_first_line (raw_text : Str)
    (h : pyStrip (firstLine (pyReplace raw_text)) = []) :
    parse_raw_request raw_text = none := by
  rw [parse_none_iff]
  unfold requestLineTokens
  rw [h]
  simp [pySplitWS, splitWSGo]

/-- Witness for C10: a raw text whose first line is empty but whose second
line is a well-formed request line still fails to parse. -/
theorem claim_C10_blank_first_line_witness :
    pyStrip (firstLine (pyReplace "\nGET /x HTTP/1.1".toList)) = [] ∧
    parse_raw_request "\nGET /x HTTP/1.1".toList = none :=
  ⟨by decide, claim_C10_blank_first_line _ (by decide)⟩

end AuthFusion
